import Mathlib

/-!
Verification development for the tracing engine of the trippy repository.

The aggregator (src/backend.rs), the channel (src/tracing/net/channel.rs) and
the Windows platform shim (src/tracing/net/platform/windows.rs) are embedded
shallowly: machine floating point durations are modelled by exact rationals
(milliseconds), Rust panics by an explicit outcome, and fallible code by
Option/Except-style results.
-/

namespace Trippy

/-- The maximum number of historic samples to keep per hop (src/backend.rs line 10). -/
def MAX_SAMPLES : Nat := 256

/-- Modelled from the spec: the constant MAX_HOPS is defined in the library
crate root, which is not among the provided source files; the spec data model
fixes the hops vector at MAX_HOPS = 64 entries. -/
def MAX_HOPS : Nat := 64

/-- Probe status (crate::icmp::ProbeStatus, referenced by src/backend.rs). -/
inductive ProbeStatus where
  | notSent
  | awaited
  | complete
deriving DecidableEq, Repr

/-- The probe data consumed by the aggregator.  The ttl field carries the u8
value of probe.ttl.0; dur is probe.duration() in milliseconds (the icmp
module that computes it from sent/received timestamps is not under src, so the
measured duration is carried directly); host is the responder address,
numerically encoded. -/
structure Probe where
  ttl : Nat
  status : ProbeStatus
  dur : ℚ
  host : Option Nat
deriving DecidableEq, Repr

/-- Per-hop rolling statistics (struct Hop, src/backend.rs lines 52-64).
Durations are exact rationals in milliseconds; the HashSet of addresses is a
duplicate-free list. -/
structure Hop where
  ttl : Nat
  addrs : List Nat
  total_sent : Nat
  total_recv : Nat
  total_time : ℚ
  last : Option ℚ
  best : Option ℚ
  worst : Option ℚ
  mean : ℚ
  m2 : ℚ
  samples : List ℚ
deriving DecidableEq, Repr

/-- Default::default() for Hop (src/backend.rs lines 127-143). -/
def Hop.default : Hop :=
  { ttl := 0, addrs := [], total_sent := 0, total_recv := 0, total_time := 0,
    last := none, best := none, worst := none, mean := 0, m2 := 0, samples := [] }

/-- The state of all hops in a trace (struct Trace, src/backend.rs lines 14-19). -/
structure Trace where
  highest_ttl : Nat
  hops : List Hop
deriving DecidableEq, Repr

/-- Default::default() for Trace (src/backend.rs lines 41-48). -/
def Trace.default : Trace :=
  { highest_ttl := 0, hops := List.replicate MAX_HOPS Hop.default }

/-- Hop::avg_ms (src/backend.rs lines 108-110): total_time in ms divided by
total_recv. -/
def Hop.avg_ms (hop : Hop) : ℚ :=
  hop.total_time / (hop.total_recv : ℚ)

/-- The quantity under the square root in Hop::stddev_ms (src/backend.rs lines
113-119): m2 / (total_recv - 1) when total_recv > 1, else 0.  stddev_ms itself
is the (irrational) square root of this value. -/
def Hop.variance (hop : Hop) : ℚ :=
  if 1 < hop.total_recv then hop.m2 / ((hop.total_recv - 1 : Nat) : ℚ) else 0

/-- usize subtraction of one with release-mode wrapping semantics, as in
`usize::from(probe.ttl.0) - 1` (src/backend.rs line 163). -/
def usizeSub1 (n : Nat) : Nat := (n + (2 ^ 64 - 1)) % 2 ^ 64

/-- The ProbeStatus::Complete arm of update_trace_data (src/backend.rs lines
166-185), acting on the indexed hop.  Field reads and writes follow the source
order: total_recv is incremented before the mean update divides by it, and the
m2 accumulation reads the already-updated mean in both factors. -/
def updateHopComplete (hop : Hop) (p : Probe) : Hop :=
  let total_recv := hop.total_recv + 1
  let dur := p.dur
  let samples0 := dur :: hop.samples
  let best := some (match hop.best with | none => dur | some d => min d dur)
  let worst := some (match hop.worst with | none => dur | some d => max d dur)
  let mean := hop.mean + (dur - hop.mean) / (total_recv : ℚ)
  let m2 := hop.m2 + (dur - mean) * (dur - mean)
  let samples := if MAX_SAMPLES < samples0.length then samples0.dropLast else samples0
  let host := p.host.getD 0
  { ttl := p.ttl, addrs := hop.addrs.insert host, total_sent := hop.total_sent + 1,
    total_recv := total_recv, total_time := hop.total_time + dur, last := some dur,
    best := best, worst := worst, mean := mean, m2 := m2, samples := samples }

/-- The ProbeStatus::Awaited arm of update_trace_data (src/backend.rs lines
186-195), acting on the indexed hop. -/
def updateHopAwaited (hop : Hop) (p : Probe) : Hop :=
  let samples0 := (0 : ℚ) :: hop.samples
  let samples := if MAX_SAMPLES < samples0.length then samples0.dropLast else samples0
  { hop with total_sent := hop.total_sent + 1, ttl := p.ttl, samples := samples }

/-- update_trace_data (src/backend.rs lines 162-198).  highest_ttl is raised
to max(highest_ttl, ttl) before the status match, exactly as in the source.
Indexing hops[index] out of bounds panics in Rust; that is modelled by none. -/
def update_trace_data (p : Probe) (t : Trace) : Option Trace :=
  let index := usizeSub1 p.ttl
  let t1 : Trace := { t with highest_ttl := max t.highest_ttl p.ttl }
  match p.status with
  | .complete =>
      if h : index < t1.hops.length then
        some { t1 with
               hops := t1.hops.set index (updateHopComplete (t1.hops.get ⟨index, h⟩) p) }
      else none
  | .awaited =>
      if h : index < t1.hops.length then
        some { t1 with
               hops := t1.hops.set index (updateHopAwaited (t1.hops.get ⟨index, h⟩) p) }
      else none
  | .notSent => some t1

/-- Fold a sequence of probe callbacks through update_trace_data, as
run_backend does one probe at a time (src/backend.rs lines 152-160). -/
def processTrace (events : List Probe) (t : Trace) : Option Trace :=
  match events with
  | [] => some t
  | e :: es =>
      match update_trace_data e t with
      | some t1 => processTrace es t1
      | none => none

/-- Modelled from the spec: the Welford update order fixed by section 4.5,
using the previous mean for one factor and the new mean for the other.  This
is the reference the aggregator is compared against; it is not the code. -/
def welfordStepSpec (mean m2 : ℚ) (n : Nat) (x : ℚ) : ℚ × ℚ :=
  let mean1 := mean + (x - mean) / (n : ℚ)
  (mean1, m2 + (x - mean) * (x - mean1))

/-- Fold the spec-ordered Welford update over a sequence of durations,
returning (mean, m2, count). -/
def welfordSpecFold (xs : List ℚ) : ℚ × ℚ × Nat :=
  xs.foldl
    (fun acc x =>
      let n := acc.2.2 + 1
      let s := welfordStepSpec acc.1 acc.2.1 n x
      (s.1, s.2, n))
    (0, 0, 0)

/-- Reference two-pass mean of a sequence of durations. -/
def twoPassMean (xs : List ℚ) : ℚ := xs.sum / (xs.length : ℚ)

/-- Reference two-pass sum of squared deviations from the mean. -/
def twoPassM2 (xs : List ℚ) : ℚ :=
  (xs.map (fun x => (x - twoPassMean xs) * (x - twoPassMean xs))).sum

/-! ### Channel model (src/tracing/net/channel.rs) -/

/-- The variants of TracerError relevant to the embedded channel code
(crate::tracing::error is not under src; variants follow the uses in
src/tracing/net/channel.rs and the error taxonomy of the spec). -/
inductive TracerError where
  | invalidPacketSize (n : Nat)
  | ioError
deriving DecidableEq, Repr

/-- Result of running a piece of Rust code: a value, a typed error, or a
panic (index out of bounds, unimplemented!, ArrayVec capacity overflow). -/
inductive Outcome (α : Type) where
  | ok (a : α)
  | err (e : TracerError)
  | panicked
deriving DecidableEq, Repr

/-- The maximum size of the IP packet we allow (src/tracing/net/channel.rs
line 33). -/
def MAX_PACKET_SIZE : Nat := 1024

/-- The maximum number of TCP probes we allow (src/tracing/net/channel.rs
line 36). -/
def MAX_TCP_PROBES : Nat := 256

/-- An entry in the TCP probes array (struct TcpProbe, src/tracing/net/
channel.rs lines 287-290).  The source stores the socket and its start
SystemTime; here elapsed carries probe.start.elapsed().unwrap_or_default()
as observed at the next sweep, and writable carries the answer
platform::is_writable(&probe.socket).unwrap_or_default() the OS would give,
both fixed by the environment. -/
structure TcpProbe where
  sock : Nat
  elapsed : ℚ
  writable : Bool
deriving DecidableEq, Repr

/-- The channel state read by the embedded operations: the bounded
ArrayVec<TcpProbe, MAX_TCP_PROBES> as a list (invariant: length at most
256), and the raw ICMP receive socket as the stream of poll results the OS
will deliver (head = next poll; none in a cell = readable but the packet did
not parse to a response; an empty stream = a poll that times out). -/
structure TracerChannel where
  tcp_connect_timeout : ℚ
  tcp_probes : List TcpProbe
  icmpQueue : List (Option Nat)
deriving DecidableEq, Repr

/-- TracerChannel::dispatch_tcp_probe (src/tracing/net/channel.rs lines
203-216): after ipv4/ipv6::dispatch_tcp_probe opens and connects the socket
(code not under src; the fresh socket id is a parameter), the probe is pushed
with ArrayVec::push, which panics when the vector is already full. -/
def dispatch_tcp_probe (ch : TracerChannel) (sock : Nat) : Outcome TracerChannel :=
  if ch.tcp_probes.length < MAX_TCP_PROBES then
    Outcome.ok { ch with tcp_probes := ch.tcp_probes ++ [⟨sock, 0, false⟩] }
  else Outcome.panicked

/-- Decoded probe responses (crate::tracing::probe::ProbeResponse, not under
src): a synthetic TcpReply for a finished TCP connect, or a response parsed
from the raw ICMP socket. -/
inductive ProbeResponse where
  | tcpReply (sock : Nat)
  | icmp (id : Nat)
deriving DecidableEq, Repr

/-- TracerChannel::recv_tcp_sockets (src/tracing/net/channel.rs lines
265-282): retain only probes younger than tcp_connect_timeout, find the first
writable one, remove it, and synthesise a TcpReply for its socket
(ipv4/ipv6::recv_tcp_socket, not under src, is abstracted to the reply). -/
def recv_tcp_sockets (ch : TracerChannel) : Option ProbeResponse × TracerChannel :=
  let retained := ch.tcp_probes.filter (fun p => decide (p.elapsed < ch.tcp_connect_timeout))
  match retained.find? (fun p => p.writable) with
  | some p =>
      (some (.tcpReply p.sock), { ch with tcp_probes := retained.eraseP (fun q => q.writable) })
  | none => (none, { ch with tcp_probes := retained })

/-- TracerChannel::recv_icmp_probe (src/tracing/net/channel.rs lines
220-236): poll the raw ICMP receive socket; is_readable false yields None,
otherwise the next packet is read and parsed. -/
def recv_icmp_probe (ch : TracerChannel) : Option ProbeResponse × TracerChannel :=
  match ch.icmpQueue with
  | [] => (none, ch)
  | r :: rest => (r.map ProbeResponse.icmp, { ch with icmpQueue := rest })

/-- The TracerProtocol::Tcp arm of Network::recv_probe (src/tracing/net/
channel.rs line 132): Ok(self.recv_tcp_sockets()?.or(self.recv_icmp_probe()?)).
Option::or takes its argument by value, so recv_icmp_probe runs before the
choice is made, whatever recv_tcp_sockets returned. -/
def recv_probe (ch : TracerChannel) : Option ProbeResponse × TracerChannel :=
  let rt := recv_tcp_sockets ch
  let ri := recv_icmp_probe rt.2
  (rt.1.or ri.1, ri.2)

/-- TracerChannel::connect, packet-size validation step (src/tracing/net/
channel.rs lines 70-74).  The remaining steps of connect perform socket and
routing I/O and never consult packet_size again. -/
def connect_validate_packet_size (packet_size : Nat) : Outcome Unit :=
  if MAX_PACKET_SIZE < packet_size then
    Outcome.err (.invalidPacketSize packet_size)
  else Outcome.ok ()

/-- platform::is_writable on Windows (src/tracing/net/platform/windows.rs
lines 619-622): the body is unimplemented!(), which panics unconditionally;
the socket argument (abstract id) is never inspected. -/
def windows_is_writable (_sock : Nat) : Outcome Bool := Outcome.panicked

/-- The sample that processing probe p pushes at the front of the sample
list of hop i: the measured duration for Complete, a zero for Awaited, nothing for
NotSent or for another hop. -/
def sampleAt (i : Nat) (p : Probe) : Option ℚ :=
  match p.status with
  | .complete => if usizeSub1 p.ttl = i then some p.dur else none
  | .awaited => if usizeSub1 p.ttl = i then some 0 else none
  | .notSent => none

/-! ### Helper lemmas -/

lemma usizeSub1_of_pos {n : Nat} (h1 : 1 ≤ n) (h2 : n ≤ 255) : usizeSub1 n = n - 1 := by
  unfold usizeSub1
  have he : n + (2 ^ 64 - 1) = (n - 1) + 2 ^ 64 := by omega
  rw [he, Nat.add_mod_right]
  exact Nat.mod_eq_of_lt (by omega)

lemma usizeSub1_zero : usizeSub1 0 = 2 ^ 64 - 1 := by
  unfold usizeSub1
  exact Nat.mod_eq_of_lt (by norm_num)

lemma usizeSub1_lt_iff {n : Nat} (h : n ≤ 255) :
    (usizeSub1 n < MAX_HOPS ↔ 1 ≤ n ∧ n ≤ MAX_HOPS) := by
  rcases Nat.eq_zero_or_pos n with h0 | h1
  · subst h0
    rw [usizeSub1_zero]
    unfold MAX_HOPS
    omega
  · rw [usizeSub1_of_pos h1 h]
    unfold MAX_HOPS
    omega

lemma recv_tcp_sockets_preserves (ch : TracerChannel) :
    (recv_tcp_sockets ch).2.icmpQueue = ch.icmpQueue ∧
    (recv_tcp_sockets ch).2.tcp_connect_timeout = ch.tcp_connect_timeout := by
  rcases hf : (ch.tcp_probes.filter
      (fun p => decide (p.elapsed < ch.tcp_connect_timeout))).find? (fun p => p.writable)
    with _ | p <;>
    simp [recv_tcp_sockets, hf]

lemma recv_icmp_probe_spec (ch : TracerChannel) :
    (recv_icmp_probe ch).2.icmpQueue = ch.icmpQueue.drop 1 ∧
    (recv_icmp_probe ch).2.tcp_probes = ch.tcp_probes ∧
    (recv_icmp_probe ch).1 = (ch.icmpQueue.head?.getD none).map ProbeResponse.icmp := by
  rcases ch with ⟨tmo, ps, q⟩
  cases q <;> simp [recv_icmp_probe]

lemma recv_tcp_sockets_retained (ch : TracerChannel) :
    ∀ p ∈ (recv_tcp_sockets ch).2.tcp_probes,
      p.elapsed < ch.tcp_connect_timeout ∧ p ∈ ch.tcp_probes := by
  intro p hp
  have hr : p ∈ ch.tcp_probes.filter
      (fun q => decide (q.elapsed < ch.tcp_connect_timeout)) := by
    rcases hf : (ch.tcp_probes.filter
        (fun q => decide (q.elapsed < ch.tcp_connect_timeout))).find? (fun q => q.writable)
      with _ | q
    · simpa [recv_tcp_sockets, hf] using hp
    · have hp2 : p ∈ (ch.tcp_probes.filter
          (fun q => decide (q.elapsed < ch.tcp_connect_timeout))).eraseP
          (fun q => q.writable) := by
        simpa [recv_tcp_sockets, hf] using hp
      exact (List.eraseP_sublist _).subset hp2
  rw [List.mem_filter] at hr
  exact ⟨of_decide_eq_true hr.2, hr.1⟩

lemma recv_tcp_sockets_found {ch : TracerChannel} {r : ProbeResponse}
    (h : (recv_tcp_sockets ch).1 = some r) :
    ∃ p, p ∈ ch.tcp_probes ∧ p.writable = true ∧
      p.elapsed < ch.tcp_connect_timeout ∧ r = .tcpReply p.sock := by
  rcases hf : (ch.tcp_probes.filter
      (fun q => decide (q.elapsed < ch.tcp_connect_timeout))).find? (fun q => q.writable)
    with _ | p
  · simp [recv_tcp_sockets, hf] at h
  · have hmem := List.mem_of_find?_eq_some hf
    rw [List.mem_filter] at hmem
    have hr : r = ProbeResponse.tcpReply p.sock := by
      simp [recv_tcp_sockets, hf] at h
      exact h.symm
    exact ⟨p, hmem.1, List.find?_some hf, of_decide_eq_true hmem.2, hr⟩

/-! ### Claim theorems -/

/-- Claim C1: the aggregator does NOT perform the Welford update in the order
fixed by the spec.  The code (src/backend.rs line 179) accumulates
m2 += (dur_ms - mean)*(dur_ms - mean) with the already-updated mean in both
factors.  Folding the durations 0 ms and 2 ms into a fresh hop, the code
yields m2 = 1 and variance 1 (stddev 1), while the spec-ordered Welford and
the two-pass reference both yield 2 (stddev sqrt 2); the means agree.  The
stddev gap is sqrt 2 - 1, far above the 1e-9 tolerance. -/
theorem welford_m2_uses_new_mean_twice :
    (updateHopComplete (updateHopComplete Hop.default ⟨1, .complete, 0, some 1⟩)
        ⟨1, .complete, 2, some 1⟩).m2 = 1 ∧
    (updateHopComplete (updateHopComplete Hop.default ⟨1, .complete, 0, some 1⟩)
        ⟨1, .complete, 2, some 1⟩).variance = 1 ∧
    (updateHopComplete (updateHopComplete Hop.default ⟨1, .complete, 0, some 1⟩)
        ⟨1, .complete, 2, some 1⟩).mean = twoPassMean [0, 2] ∧
    (welfordSpecFold [0, 2]).2.1 = 2 ∧
    twoPassM2 [0, 2] = 2 ∧
    Real.sqrt 1 + 1 / 10 ^ 9 < Real.sqrt 2 := by
  refine ⟨?_, ?_, ?_, ?_, ?_, ?_⟩
  · norm_num [updateHopComplete, Hop.default, MAX_SAMPLES]
  · norm_num [updateHopComplete, Hop.default, MAX_SAMPLES, Hop.variance]
  · norm_num [updateHopComplete, Hop.default, MAX_SAMPLES, twoPassMean]
  · norm_num [welfordSpecFold, welfordStepSpec]
  · norm_num [twoPassM2, twoPassMean]
  · rw [Real.sqrt_one]
    rw [show (1 : ℝ) + 1 / 10 ^ 9 = Real.sqrt ((1 + 1 / 10 ^ 9) ^ 2) by
      rw [Real.sqrt_sq (by norm_num)]]
    apply Real.sqrt_lt_sqrt (by positivity)
    norm_num

/-- Claim C2: dispatching a TCP probe while the bounded array already holds
MAX_TCP_PROBES = 256 entries does not reject the probe with ChannelFull: the
code pushes with ArrayVec::push, which panics on a full vector.  A successful
push keeps the array within capacity. -/
theorem dispatch_tcp_probe_panics_when_full :
    (∀ (ch : TracerChannel) (sock : Nat), ch.tcp_probes.length = MAX_TCP_PROBES →
      dispatch_tcp_probe ch sock = Outcome.panicked) ∧
    (∀ (ch : TracerChannel) (sock : Nat) (ch1 : TracerChannel),
      dispatch_tcp_probe ch sock = Outcome.ok ch1 →
      ch1.tcp_probes.length ≤ MAX_TCP_PROBES) := by
  constructor
  · intro ch sock hfull
    unfold dispatch_tcp_probe
    rw [hfull]
    simp
  · intro ch sock ch1 h
    unfold dispatch_tcp_probe at h
    by_cases hlt : ch.tcp_probes.length < MAX_TCP_PROBES
    · rw [if_pos hlt] at h
      cases h
      simp
      omega
    · rw [if_neg hlt] at h
      cases h

/-- Witness for C2 at a channel holding exactly 256 pending TCP probes. -/
theorem dispatch_tcp_probe_panics_when_full_witness :
    dispatch_tcp_probe ⟨10, List.replicate 256 ⟨0, 0, false⟩, []⟩ 7 = Outcome.panicked :=
  dispatch_tcp_probe_panics_when_full.1 _ 7 (by simp only [List.length_replicate, MAX_TCP_PROBES])

/-- Counterexample for claim C3: with one fresh writable TCP probe pending
and one packet waiting on the raw ICMP socket, recv_probe returns the
synthesised TcpReply, yet the ICMP socket was still polled and its packet
consumed: the claim that the ICMP socket is polled only when no TCP probe
yielded a response is false. -/
theorem recv_probe_polls_icmp_despite_tcp_reply :
    (recv_tcp_sockets ⟨10, [⟨7, 1, true⟩], [some 42]⟩).1 = some (.tcpReply 7) ∧
    (recv_probe ⟨10, [⟨7, 1, true⟩], [some 42]⟩).1 = some (.tcpReply 7) ∧
    (⟨10, [⟨7, 1, true⟩], [some 42]⟩ : TracerChannel).icmpQueue = [some 42] ∧
    (recv_probe ⟨10, [⟨7, 1, true⟩], [some 42]⟩).2.icmpQueue = [] := by
  refine ⟨?_, ?_, rfl, ?_⟩ <;>
    simp [recv_probe, recv_tcp_sockets, recv_icmp_probe, List.find?, List.filter,
      show (1 : ℚ) < 10 by norm_num]

/-- Claim C3 as amended: in TCP mode recv_probe first sweeps the TCP probe
set (evicting entries at least tcp_connect_timeout old and synthesising a
TcpReply for the first writable one, which is removed), and then polls the
raw ICMP receive socket UNCONDITIONALLY; when the sweep yielded a response it
takes precedence and the ICMP poll result is discarded. -/
theorem recv_probe_sweeps_then_polls (ch : TracerChannel) :
    ((recv_probe ch).2.icmpQueue = ch.icmpQueue.drop 1) ∧
    ((recv_probe ch).2.tcp_probes = (recv_tcp_sockets ch).2.tcp_probes) ∧
    (∀ p ∈ (recv_probe ch).2.tcp_probes,
      p.elapsed < ch.tcp_connect_timeout ∧ p ∈ ch.tcp_probes) ∧
    (∀ r, (recv_tcp_sockets ch).1 = some r →
      (recv_probe ch).1 = some r ∧
      ∃ p, p ∈ ch.tcp_probes ∧ p.writable = true ∧
        p.elapsed < ch.tcp_connect_timeout ∧ r = .tcpReply p.sock) ∧
    ((recv_tcp_sockets ch).1 = none →
      (recv_probe ch).1 =
        (((recv_tcp_sockets ch).2.icmpQueue.head?.getD none).map ProbeResponse.icmp)) := by
  have hpres := recv_tcp_sockets_preserves ch
  have hicmp := recv_icmp_probe_spec (recv_tcp_sockets ch).2
  refine ⟨?_, ?_, ?_, ?_, ?_⟩
  · show (recv_icmp_probe (recv_tcp_sockets ch).2).2.icmpQueue = ch.icmpQueue.drop 1
    rw [hicmp.1, hpres.1]
  · show (recv_icmp_probe (recv_tcp_sockets ch).2).2.tcp_probes =
      (recv_tcp_sockets ch).2.tcp_probes
    exact hicmp.2.1
  · intro p hp
    have hp2 : p ∈ (recv_tcp_sockets ch).2.tcp_probes := by
      have : (recv_probe ch).2.tcp_probes = (recv_tcp_sockets ch).2.tcp_probes := hicmp.2.1
      rwa [this] at hp
    exact recv_tcp_sockets_retained ch p hp2
  · intro r hr
    refine ⟨?_, recv_tcp_sockets_found hr⟩
    show ((recv_tcp_sockets ch).1.or (recv_icmp_probe (recv_tcp_sockets ch).2).1) = some r
    rw [hr]
    rfl
  · intro hn
    show ((recv_tcp_sockets ch).1.or (recv_icmp_probe (recv_tcp_sockets ch).2).1) = _
    rw [hn, Option.none_or, hicmp.2.2]

/-- Witness for the amended C3 theorem: a fresh writable probe is answered. -/
theorem recv_probe_sweeps_then_polls_witness :
    (recv_probe ⟨10, [⟨7, 1, true⟩], []⟩).1 = some (.tcpReply 7) :=
  ((recv_probe_sweeps_then_polls ⟨10, [⟨7, 1, true⟩], []⟩).2.2.2.1
    (.tcpReply 7)
    (by simp [recv_tcp_sockets, List.find?, List.filter, show (1 : ℚ) < 10 by norm_num])).1

/-- Claim C4: platform::is_writable is NOT total on Windows: the provided
Windows implementation is unimplemented!() and panics on every socket instead
of returning a typed result. -/
theorem windows_is_writable_always_panics (sock : Nat) :
    windows_is_writable sock = Outcome.panicked := rfl

/-- Counterexample for claim C5: processing a NotSent probe does NOT leave
the Trace unchanged: highest_ttl is raised before the status match
(src/backend.rs line 164), so a NotSent probe with ttl 5 lifts highest_ttl of
the default trace from 0 to 5. -/
theorem update_trace_data_notSent_raises_highest_ttl :
    (update_trace_data ⟨5, .notSent, 0, none⟩ Trace.default).map Trace.highest_ttl
      = some 5 ∧
    Trace.default.highest_ttl = 0 := ⟨rfl, rfl⟩

/-- Claim C5 as amended: the aggregator updates
highest_ttl = max(highest_ttl, ttl) on EVERY processed probe, whatever its
status; a NotSent probe leaves the hops (but not necessarily highest_ttl)
unchanged. -/
theorem update_trace_data_highest_ttl_all_statuses (p : Probe) (t t1 : Trace)
    (h : update_trace_data p t = some t1) :
    t1.highest_ttl = max t.highest_ttl p.ttl ∧
    (p.status = .notSent → t1.hops = t.hops) := by
  rcases hs : p.status with _ | _ | _ <;>
    simp [update_trace_data, hs] at h
  · exact ⟨by rw [← h], fun _ => by rw [← h]⟩
  · rcases h with ⟨hlt, h⟩
    exact ⟨by rw [← h], by simp [hs]⟩
  · rcases h with ⟨hlt, h⟩
    exact ⟨by rw [← h], by simp [hs]⟩

/-- Witness for the amended C5 theorem at a NotSent probe of ttl 3. -/
theorem update_trace_data_highest_ttl_all_statuses_witness :
    (⟨max Trace.default.highest_ttl 3, Trace.default.hops⟩ : Trace).highest_ttl
      = max Trace.default.highest_ttl 3 ∧
    (⟨max Trace.default.highest_ttl 3, Trace.default.hops⟩ : Trace).hops
      = Trace.default.hops :=
  ⟨(update_trace_data_highest_ttl_all_statuses ⟨3, .notSent, 0, none⟩ Trace.default
      ⟨max Trace.default.highest_ttl 3, Trace.default.hops⟩ rfl).1,
   (update_trace_data_highest_ttl_all_statuses ⟨3, .notSent, 0, none⟩ Trace.default
      ⟨max Trace.default.highest_ttl 3, Trace.default.hops⟩ rfl).2 rfl⟩

/-- Counterexample for claim C9: TracerChannel::connect checks only the upper
bound of the packet-size range: a packet size of 27, outside [28, 1024],
passes the validation without an InvalidPacketSize error. -/
theorem connect_packet_size_lower_bound_unchecked :
    connect_validate_packet_size 27 = Outcome.ok () ∧ 27 < 28 := by
  constructor
  · rfl
  · norm_num

/-- Claim C9 as amended: the packet-size validation of TracerChannel::connect
returns InvalidPacketSize exactly for packet sizes above MAX_PACKET_SIZE =
1024 and succeeds exactly for sizes at most 1024; the lower bound 28 is not
enforced at channel construction. -/
theorem connect_validate_packet_size_iff (ps : Nat) :
    (connect_validate_packet_size ps = Outcome.err (.invalidPacketSize ps)
      ↔ MAX_PACKET_SIZE < ps) ∧
    (connect_validate_packet_size ps = Outcome.ok () ↔ ps ≤ MAX_PACKET_SIZE) := by
  unfold connect_validate_packet_size
  by_cases h : MAX_PACKET_SIZE < ps
  · rw [if_pos h]
    constructor
    · simp [h]
    · constructor
      · intro hk
        cases hk
      · intro hk
        omega
  · rw [if_neg h]
    constructor
    · constructor
      · intro hk
        cases hk
      · intro hk
        exact absurd hk h
    · simp
      omega

/-- Witness for the amended C9 theorem at sizes 2000 and 100. -/
theorem connect_validate_packet_size_iff_witness :
    connect_validate_packet_size 2000 = Outcome.err (.invalidPacketSize 2000) ∧
    connect_validate_packet_size 100 = Outcome.ok () :=
  ⟨(connect_validate_packet_size_iff 2000).1.mpr (by norm_num [MAX_PACKET_SIZE]),
   (connect_validate_packet_size_iff 100).2.mpr (by norm_num [MAX_PACKET_SIZE])⟩

/-- Claim C10: the default hops vector has fixed length MAX_HOPS = 64, and
for a Complete or Awaited probe (ttl a u8 value) update_trace_data succeeds
exactly when ttl lies in [1, 64]: ttl = 0 wraps usize subtraction to 2^64 - 1
and ttl > 64 indexes past the vector, both out-of-bounds panics. -/
theorem update_trace_data_in_bounds_iff :
    Trace.default.hops.length = MAX_HOPS ∧
    ∀ (p : Probe) (t : Trace), t.hops.length = MAX_HOPS → p.ttl ≤ 255 →
      p.status ≠ .notSent →
      ((update_trace_data p t).isSome = true ↔ 1 ≤ p.ttl ∧ p.ttl ≤ MAX_HOPS) := by
  constructor
  · simp [Trace.default]
  · intro p t hlen httl hst
    rcases hs : p.status with _ | _ | _
    · exact absurd hs hst
    · rw [show (update_trace_data p t).isSome = true ↔ usizeSub1 p.ttl < t.hops.length by
        simp [update_trace_data, hs]]
      rw [hlen]
      exact usizeSub1_lt_iff httl
    · rw [show (update_trace_data p t).isSome = true ↔ usizeSub1 p.ttl < t.hops.length by
        simp [update_trace_data, hs]]
      rw [hlen]
      exact usizeSub1_lt_iff httl

/-- Witness for C10: a Complete probe at ttl 5 is in bounds. -/
theorem update_trace_data_in_bounds_iff_witness :
    (update_trace_data ⟨5, .complete, 1, none⟩ Trace.default).isSome = true :=
  (update_trace_data_in_bounds_iff.2 ⟨5, .complete, 1, none⟩ Trace.default
    (by simp [Trace.default]) (by norm_num) (by simp)).mpr
    ⟨by norm_num, by norm_num [MAX_HOPS]⟩

/-! ### Invariant machinery for the fold of probe events -/

lemma update_trace_data_hops_cases {p : Probe} {t t1 : Trace}
    (h : update_trace_data p t = some t1) :
    ∀ hop ∈ t1.hops, hop ∈ t.hops ∨
      (∃ hop0 ∈ t.hops, hop = updateHopComplete hop0 p) ∨
      (∃ hop0 ∈ t.hops, hop = updateHopAwaited hop0 p) := by
  intro hop hmem
  rcases hs : p.status with _ | _ | _ <;> simp [update_trace_data, hs] at h
  · left
    rw [← h] at hmem
    exact hmem
  · rcases h with ⟨hlt, heq⟩
    rw [← heq] at hmem
    rcases List.mem_or_eq_of_mem_set hmem with hm | hm
    · exact Or.inl hm
    · exact Or.inr (Or.inr ⟨_, List.get_mem _ _ _, hm⟩)
  · rcases h with ⟨hlt, heq⟩
    rw [← heq] at hmem
    rcases List.mem_or_eq_of_mem_set hmem with hm | hm
    · exact Or.inl hm
    · exact Or.inr (Or.inl ⟨_, List.get_mem _ _ _, hm⟩)

lemma processTrace_hops_pred (P : Hop → Prop)
    (hc : ∀ hop p, P hop → P (updateHopComplete hop p))
    (ha : ∀ hop p, P hop → P (updateHopAwaited hop p)) :
    ∀ (events : List Probe) (t0 t : Trace), processTrace events t0 = some t →
      (∀ hop ∈ t0.hops, P hop) → ∀ hop ∈ t.hops, P hop := by
  intro events
  induction events with
  | nil =>
      intro t0 t h hall
      have ht : t0 = t := by simpa [processTrace] using h
      subst ht
      exact hall
  | cons e es ih =>
      intro t0 t h hall
      rcases hu : update_trace_data e t0 with _ | t1
      · simp [processTrace, hu] at h
      · simp only [processTrace, hu] at h
        apply ih t1 t h
        intro hop hmem
        rcases update_trace_data_hops_cases hu hop hmem with hm | ⟨hop0, hm0, he⟩ | ⟨hop0, hm0, he⟩
        · exact hall hop hm
        · exact he ▸ hc hop0 e (hall hop0 hm0)
        · exact he ▸ ha hop0 e (hall hop0 hm0)

lemma truncate_push (x : ℚ) (old : List ℚ) (hle : old.length ≤ MAX_SAMPLES) :
    (if MAX_SAMPLES < (x :: old).length then (x :: old).dropLast else (x :: old))
      = (x :: old).take MAX_SAMPLES := by
  by_cases hlen : MAX_SAMPLES < (x :: old).length
  · rw [if_pos hlen, List.dropLast_eq_take]
    congr 1
    simp only [List.length_cons] at hlen ⊢
    omega
  · rw [if_neg hlen, List.take_of_length_le]
    omega

lemma take_append_take (A B : List ℚ) :
    (A ++ B.take MAX_SAMPLES).take MAX_SAMPLES = (A ++ B).take MAX_SAMPLES := by
  rw [List.take_append_eq_append_take, List.take_append_eq_append_take, List.take_take]
  congr 1
  exact congrArg (fun n => List.take n B) (Nat.min_eq_left (Nat.sub_le _ _))

lemma set_push_samples {hops : List Hop} {k : Nat} (hlt : k < hops.length)
    (f : Hop → Hop) (x : ℚ)
    (hf : ∀ hop, (f hop).samples
      = if MAX_SAMPLES < (x :: hop.samples).length then (x :: hop.samples).dropLast
        else (x :: hop.samples)) :
    ∀ i (hi : i < (hops.set k (f (hops.get ⟨k, hlt⟩))).length) (hi0 : i < hops.length),
      (hops.get ⟨i, hi0⟩).samples.length ≤ MAX_SAMPLES →
      ((hops.set k (f (hops.get ⟨k, hlt⟩))).get ⟨i, hi⟩).samples
        = ((if k = i then some x else none).toList
            ++ (hops.get ⟨i, hi0⟩).samples).take MAX_SAMPLES := by
  intro i hi hi0 hle
  simp only [List.get_eq_getElem]
  by_cases hik : k = i
  · subst hik
    rw [if_pos rfl, List.getElem_set_self, hf]
    simpa using truncate_push x _ hle
  · rw [if_neg hik, List.getElem_set_ne hik]
    simpa using (List.take_of_length_le hle).symm

lemma update_trace_data_step_samples {p : Probe} {t t1 : Trace}
    (h : update_trace_data p t = some t1) :
    t1.hops.length = t.hops.length ∧
    ∀ i (hi : i < t1.hops.length) (hi0 : i < t.hops.length),
      (t.hops.get ⟨i, hi0⟩).samples.length ≤ MAX_SAMPLES →
      (t1.hops.get ⟨i, hi⟩).samples
        = ((sampleAt i p).toList ++ (t.hops.get ⟨i, hi0⟩).samples).take MAX_SAMPLES := by
  rcases hs : p.status with _ | _ | _ <;> simp [update_trace_data, hs] at h
  · rw [← h]
    refine ⟨rfl, ?_⟩
    intro i hi hi0 hle
    have hsa : sampleAt i p = none := by simp [sampleAt, hs]
    rw [hsa, show (Option.toList (none : Option ℚ)) = [] from rfl, List.nil_append,
      List.take_of_length_le hle]
  · rcases h with ⟨hlt, heq⟩
    rw [← heq]
    refine ⟨by simp, ?_⟩
    intro i hi hi0 hle
    have hsa : sampleAt i p = if usizeSub1 p.ttl = i then some (0 : ℚ) else none := by
      simp [sampleAt, hs]
    rw [hsa]
    exact set_push_samples hlt (fun hop => updateHopAwaited hop p) 0
      (fun hop => rfl) i (by simpa using hi) hi0 hle
  · rcases h with ⟨hlt, heq⟩
    rw [← heq]
    refine ⟨by simp, ?_⟩
    intro i hi hi0 hle
    have hsa : sampleAt i p = if usizeSub1 p.ttl = i then some p.dur else none := by
      simp [sampleAt, hs]
    rw [hsa]
    exact set_push_samples hlt (fun hop => updateHopComplete hop p) p.dur
      (fun hop => rfl) i (by simpa using hi) hi0 hle

lemma processTrace_samples :
    ∀ (events : List Probe) (t0 t : Trace), processTrace events t0 = some t →
      t.hops.length = t0.hops.length ∧
      ∀ i (hi : i < t.hops.length) (hi0 : i < t0.hops.length),
        (t0.hops.get ⟨i, hi0⟩).samples.length ≤ MAX_SAMPLES →
        (t.hops.get ⟨i, hi⟩).samples
          = ((events.filterMap (sampleAt i)).reverse
              ++ (t0.hops.get ⟨i, hi0⟩).samples).take MAX_SAMPLES := by
  intro events
  induction events with
  | nil =>
      intro t0 t h
      have ht : t0 = t := by simpa [processTrace] using h
      subst ht
      refine ⟨rfl, ?_⟩
      intro i hi hi0 hle
      rw [List.filterMap_nil, List.reverse_nil, List.nil_append, List.take_of_length_le hle]
  | cons e es ih =>
      intro t0 t h
      rcases hu : update_trace_data e t0 with _ | t1
      · simp [processTrace, hu] at h
      · simp only [processTrace, hu] at h
        obtain ⟨hlen1, hstep⟩ := update_trace_data_step_samples hu
        obtain ⟨hlen2, hind⟩ := ih t1 t h
        refine ⟨hlen2.trans hlen1, ?_⟩
        intro i hi hi0 hle
        have hi1 : i < t1.hops.length := by omega
        have hle1 : (t1.hops.get ⟨i, hi1⟩).samples.length ≤ MAX_SAMPLES := by
          rw [hstep i hi1 hi0 hle]
          simp [List.length_take]
        rw [hind i hi hi1 hle1, hstep i hi1 hi0 hle, take_append_take, ← List.append_assoc,
          List.filterMap_cons]
        rcases hse : sampleAt i e with _ | x <;> simp [hse]

/-- Claim C6: starting from the default trace, after any sequence of
aggregator updates the sample list of every hop has length at most MAX_SAMPLES =
256 and equals the chronologically reversed list of pushed samples (the
duration for each Complete probe, zero for each Awaited probe, nothing for
NotSent) truncated to the newest 256: newest-first order. -/
theorem samples_bounded_newest_first (events : List Probe) (t : Trace)
    (h : processTrace events Trace.default = some t) :
    ∀ i (hi : i < t.hops.length),
      (t.hops.get ⟨i, hi⟩).samples.length ≤ MAX_SAMPLES ∧
      (t.hops.get ⟨i, hi⟩).samples
        = ((events.filterMap (sampleAt i)).reverse).take MAX_SAMPLES := by
  obtain ⟨hlen, hall⟩ := processTrace_samples events Trace.default t h
  intro i hi
  have hi0 : i < Trace.default.hops.length := by omega
  have hdef : Trace.default.hops.get ⟨i, hi0⟩ = Hop.default := by
    simp [Trace.default, List.get_eq_getElem]
  have hle : (Trace.default.hops.get ⟨i, hi0⟩).samples.length ≤ MAX_SAMPLES := by
    rw [hdef]
    norm_num [Hop.default, MAX_SAMPLES]
  have heq := hall i hi hi0 hle
  rw [hdef] at heq
  rw [show Hop.default.samples = ([] : List ℚ) from rfl, List.append_nil] at heq
  refine ⟨?_, heq⟩
  rw [heq]
  simp [List.length_take]

/-- Witness for C6 with one Complete probe at ttl 1 and duration 2 ms. -/
theorem samples_bounded_newest_first_witness :
    (((⟨1, (List.replicate MAX_HOPS Hop.default).set 0
          (updateHopComplete Hop.default ⟨1, .complete, 2, some 4⟩)⟩ : Trace).hops.get
        ⟨0, by norm_num [MAX_HOPS]⟩).samples.length ≤ MAX_SAMPLES ∧
     ((⟨1, (List.replicate MAX_HOPS Hop.default).set 0
          (updateHopComplete Hop.default ⟨1, .complete, 2, some 4⟩)⟩ : Trace).hops.get
        ⟨0, by norm_num [MAX_HOPS]⟩).samples
       = ((([⟨1, .complete, 2, some 4⟩] : List Probe).filterMap (sampleAt 0)).reverse).take
           MAX_SAMPLES) :=
  samples_bounded_newest_first [⟨1, .complete, 2, some 4⟩]
    ⟨1, (List.replicate MAX_HOPS Hop.default).set 0
      (updateHopComplete Hop.default ⟨1, .complete, 2, some 4⟩)⟩
    rfl 0 (by norm_num [MAX_HOPS])

/-- Claim C7: starting from the default trace, after any sequence of
aggregator updates every hop satisfies total_recv ≤ total_sent: a Complete
probe increments both counters and an Awaited probe only total_sent. -/
theorem total_recv_le_total_sent (events : List Probe) (t : Trace)
    (h : processTrace events Trace.default = some t) :
    ∀ hop ∈ t.hops, hop.total_recv ≤ hop.total_sent := by
  refine processTrace_hops_pred (fun hop => hop.total_recv ≤ hop.total_sent)
    ?_ ?_ events Trace.default t h ?_
  · intro hop p hp
    have h1 : (updateHopComplete hop p).total_recv = hop.total_recv + 1 := rfl
    have h2 : (updateHopComplete hop p).total_sent = hop.total_sent + 1 := rfl
    omega
  · intro hop p hp
    have h1 : (updateHopAwaited hop p).total_recv = hop.total_recv := rfl
    have h2 : (updateHopAwaited hop p).total_sent = hop.total_sent + 1 := rfl
    omega
  · intro hop hmem
    have hd : hop = Hop.default :=
      List.eq_of_mem_replicate (by simpa [Trace.default] using hmem)
    rw [hd]
    exact Nat.le.refl

/-- Witness for C7 after a single Awaited probe at ttl 1. -/
theorem total_recv_le_total_sent_witness :
    (updateHopAwaited Hop.default ⟨1, .awaited, 0, none⟩).total_recv
      ≤ (updateHopAwaited Hop.default ⟨1, .awaited, 0, none⟩).total_sent :=
  total_recv_le_total_sent [⟨1, .awaited, 0, none⟩]
    ⟨1, (List.replicate MAX_HOPS Hop.default).set 0
      (updateHopAwaited Hop.default ⟨1, .awaited, 0, none⟩)⟩
    rfl
    (updateHopAwaited Hop.default ⟨1, .awaited, 0, none⟩)
    (by
      show updateHopAwaited Hop.default ⟨1, .awaited, 0, none⟩
        ∈ updateHopAwaited Hop.default ⟨1, .awaited, 0, none⟩
            :: List.replicate 63 Hop.default
      exact List.mem_cons_self _ _)

/-- Claim C8: starting from the default trace, every hop that has received at
least one Complete probe reports best ≤ mean ≤ worst, where mean is
Hop::avg_ms = total_time / total_recv and best/worst are the running min/max
of the observed durations. -/
theorem best_le_avg_le_worst (events : List Probe) (t : Trace)
    (h : processTrace events Trace.default = some t) :
    ∀ hop ∈ t.hops, 1 ≤ hop.total_recv →
      ∃ b w, hop.best = some b ∧ hop.worst = some w ∧
        b ≤ hop.avg_ms ∧ hop.avg_ms ≤ w := by
  have hinv := processTrace_hops_pred
    (fun hop => (hop.total_recv = 0 ∧ hop.best = none ∧ hop.worst = none ∧
        hop.total_time = 0) ∨
      (∃ b w, hop.best = some b ∧ hop.worst = some w ∧ 1 ≤ hop.total_recv ∧
        (hop.total_recv : ℚ) * b ≤ hop.total_time ∧
        hop.total_time ≤ (hop.total_recv : ℚ) * w))
    ?_ ?_ events Trace.default t h ?_
  · intro hop hmem h1
    rcases hinv hop hmem with ⟨h0, _, _, _⟩ | ⟨b, w, hb, hw, hr, hlb, hub⟩
    · omega
    · have hpos : (0 : ℚ) < (hop.total_recv : ℚ) := by
        exact_mod_cast Nat.lt_of_lt_of_le Nat.zero_lt_one hr
      refine ⟨b, w, hb, hw, ?_, ?_⟩
      · rw [Hop.avg_ms, le_div_iff₀ hpos, mul_comm]
        exact hlb
      · rw [Hop.avg_ms, div_le_iff₀ hpos, mul_comm]
        exact hub
  · intro hop p hp
    have hrecv : (updateHopComplete hop p).total_recv = hop.total_recv + 1 := rfl
    have htime : (updateHopComplete hop p).total_time = hop.total_time + p.dur := rfl
    have hbest : (updateHopComplete hop p).best
        = some (match hop.best with | none => p.dur | some d => min d p.dur) := rfl
    have hworst : (updateHopComplete hop p).worst
        = some (match hop.worst with | none => p.dur | some d => max d p.dur) := rfl
    rcases hp with ⟨h0, hbn, hwn, htn⟩ | ⟨b, w, hb, hw, hr, hlb, hub⟩
    · right
      refine ⟨p.dur, p.dur, ?_, ?_, ?_, ?_, ?_⟩
      · rw [hbest, hbn]
      · rw [hworst, hwn]
      · omega
      · rw [hrecv, htime, h0, htn]
        norm_num
      · rw [hrecv, htime, h0, htn]
        norm_num
    · right
      refine ⟨min b p.dur, max w p.dur, ?_, ?_, ?_, ?_, ?_⟩
      · rw [hbest, hb]
      · rw [hworst, hw]
      · omega
      · rw [hrecv, htime]
        push_cast
        have hm1 : (hop.total_recv : ℚ) * min b p.dur ≤ (hop.total_recv : ℚ) * b :=
          mul_le_mul_of_nonneg_left (min_le_left _ _) (Nat.cast_nonneg _)
        have hm2 : min b p.dur ≤ p.dur := min_le_right _ _
        nlinarith [hlb]
      · rw [hrecv, htime]
        push_cast
        have hm1 : (hop.total_recv : ℚ) * w ≤ (hop.total_recv : ℚ) * max w p.dur :=
          mul_le_mul_of_nonneg_left (le_max_left _ _) (Nat.cast_nonneg _)
        have hm2 : p.dur ≤ max w p.dur := le_max_right _ _
        nlinarith [hub]
  · intro hop p hp
    have hrecv : (updateHopAwaited hop p).total_recv = hop.total_recv := rfl
    have htime : (updateHopAwaited hop p).total_time = hop.total_time := rfl
    have hbest : (updateHopAwaited hop p).best = hop.best := rfl
    have hworst : (updateHopAwaited hop p).worst = hop.worst := rfl
    rw [hrecv, htime, hbest, hworst]
    exact hp
  · intro hop hmem
    have hd : hop = Hop.default :=
      List.eq_of_mem_replicate (by simpa [Trace.default] using hmem)
    rw [hd]
    left
    exact ⟨rfl, rfl, rfl, rfl⟩

/-- Witness for C8 after one Complete probe of duration 2 ms at ttl 1. -/
theorem best_le_avg_le_worst_witness :
    ∃ b w, (updateHopComplete Hop.default ⟨1, .complete, 2, some 4⟩).best = some b ∧
      (updateHopComplete Hop.default ⟨1, .complete, 2, some 4⟩).worst = some w ∧
      b ≤ (updateHopComplete Hop.default ⟨1, .complete, 2, some 4⟩).avg_ms ∧
      (updateHopComplete Hop.default ⟨1, .complete, 2, some 4⟩).avg_ms ≤ w :=
  best_le_avg_le_worst [⟨1, .complete, 2, some 4⟩]
    ⟨1, (List.replicate MAX_HOPS Hop.default).set 0
      (updateHopComplete Hop.default ⟨1, .complete, 2, some 4⟩)⟩
    rfl
    (updateHopComplete Hop.default ⟨1, .complete, 2, some 4⟩)
    (by
      show updateHopComplete Hop.default ⟨1, .complete, 2, some 4⟩
        ∈ updateHopComplete Hop.default ⟨1, .complete, 2, some 4⟩
            :: List.replicate 63 Hop.default
      exact List.mem_cons_self _ _)
    (by norm_num [updateHopComplete, Hop.default])

end Trippy
